import Mathlib

/-!
Verification of the similarity-retrieval and live-session question-ranking
engine of the early_cancer_diagnosis repository.

The development shallowly embeds the Python sources:
  * `medical_case_faiss.py` — case-text extraction, index build, search,
    save/load of the FAISS index and metadata;
  * `app.py` — the live-session `mark_asked` plan update;
  * `crew_runner.py` — text normalization, question similarity,
    deduplication and the fallback relevance ranker.

Modelling conventions:
  * Python floats are modelled as exact rationals (`ℚ`).
  * Python strings are Lean `String`s; the whitespace set is the ASCII
    whitespace set matched by Python's `str.strip` / `str.split` / `\s`.
  * The sentence-transformer embedding model and the FAISS inner-product
    index are external libraries; they are abstracted by a similarity
    function `score : Nat → ℚ` giving the (cosine) similarity between the
    query embedding and the stored vector at each position.  FAISS's
    `IndexFlatIP.search` returns the `search_k` best positions in
    similarity-descending order, which the model realizes by a stable sort
    of all positions.
  * Python's `difflib.SequenceMatcher.ratio` (an external library used by
    `questions_are_similar`) is abstracted by a parameter
    `seqR : String → String → ℚ`.
  * Exceptions are modelled with `Except`; a Python `NameError`
    (undefined variable) is `Except.error ()` in `extract_case_text`.
-/

/-- Python ASCII whitespace (the characters matched by `str.strip()`,
`str.split()` and the regex class `\s` on ASCII text). -/
def isPyWs (c : Char) : Bool :=
  c = ' ' || c = '\t' || c = '\n' || c = '\r' || c = '\x0b' || c = '\x0c'

/-- The character class `[\r\n\t]` of `normalize_text`'s first regex. -/
def isRNT (c : Char) : Bool :=
  c = '\r' || c = '\n' || c = '\t'

/-- The character class `[a-z0-9\s]` kept by `normalize_text`'s second
regex (every other character is replaced by a space). -/
def isKept (c : Char) : Bool :=
  ('a' ≤ c && c ≤ 'z') || ('0' ≤ c && c ≤ '9') || isPyWs c

/-- Run-collapsing scanner: `inRun` records whether the previous
character belonged to a run of `p`-characters. -/
def collapseAux (p : Char → Bool) (inRun : Bool) : List Char → List Char
  | [] => []
  | c :: cs =>
    if p c then
      if inRun then collapseAux p true cs
      else ' ' :: collapseAux p true cs
    else c :: collapseAux p false cs

/-- Replace every maximal run of characters satisfying `p` by a single
space — the effect of `re.sub("<class>+", " ", t)` for a one-character
class `<class>`. -/
def collapseRuns (p : Char → Bool) (l : List Char) : List Char :=
  collapseAux p false l

/-- Python `str.strip()` on a character list. -/
def pyStripList (l : List Char) : List Char :=
  ((l.dropWhile isPyWs).reverse.dropWhile isPyWs).reverse

/-- Python `str.strip()`. -/
def pyStrip (s : String) : String :=
  String.mk (pyStripList s.toList)

/-- Python `str.lower()` (per-character lowering). -/
def pyLower (s : String) : String :=
  String.mk (s.toList.map Char.toLower)

/-- `crew_runner.normalize_text`: lowercase and strip, collapse runs of
`[\r\n\t]` to a space, replace characters outside `[a-z0-9\s]` by a
space, collapse whitespace runs, strip. -/
def normalize_text (text : String) : String :=
  if text = "" then ""
  else
    let l0 := (pyStrip (pyLower text)).toList
    let l1 := collapseRuns isRNT l0
    let l2 := l1.map (fun c => if isKept c then c else ' ')
    let l3 := collapseRuns isPyWs l2
    String.mk (pyStripList l3)

/-- Word-splitting scanner: `cur` is the current word, reversed. -/
def pySplitAux (cur : List Char) : List Char → List (List Char)
  | [] => if cur = [] then [] else [cur.reverse]
  | c :: cs =>
    if isPyWs c then
      if cur = [] then pySplitAux [] cs
      else cur.reverse :: pySplitAux [] cs
    else pySplitAux (c :: cur) cs

/-- Python `str.split()` (split on whitespace runs, dropping empties),
on a character list. -/
def pySplitList (l : List Char) : List (List Char) :=
  pySplitAux [] l

/-- Python `str.split()`. -/
def pySplit (s : String) : List String :=
  (pySplitList s.toList).map String.mk

/-- Python `set(s.split())`. -/
def tokens (s : String) : Finset String :=
  (pySplit s).toFinset

/-! ## `medical_case_faiss.py` — case records and text extraction -/

/-- A bilingual free-text field of a raw case dictionary: either a dict
with optional `english` / `swahili` keys, a plain string, or some other
(ignored) shape. -/
inductive BiField where
  | bdict (english : Option String) (swahili : Option String)
  | bstr (s : String)
  | bother
deriving DecidableEq

/-- A mapping-shaped field (`red_flags`, `Suspected_illness`): a dict of
key/value pairs in insertion order, or some other (ignored) shape. -/
inductive MapField where
  | mdict (entries : List (String × String))
  | mother
deriving DecidableEq

/-- The value under `question` / `response` inside one recommended
question; only the `english` key is read by `_extract_case_text`. -/
inductive QComp where
  | qdict (english : Option String)
  | qother
deriving DecidableEq

/-- One element of the `recommended_questions` list. -/
inductive QItem where
  | qobj (question : Option QComp) (response : Option QComp)
  | qnondict
deriving DecidableEq

/-- The `recommended_questions` field: a list, or some other shape. -/
inductive RecQ where
  | rlist (items : List QItem)
  | rother
deriving DecidableEq

/-- A raw case dictionary, with exactly the keys `_extract_case_text`
and `build_database` read; an absent key is `none`. -/
structure Case where
  case_id : Option String := none
  patient_background : Option BiField := none
  chief_complaint_history : Option BiField := none
  medical_social_history : Option BiField := none
  opening_statement : Option BiField := none
  recommended_questions : Option RecQ := none
  red_flags : Option MapField := none
  Suspected_illness : Option MapField := none
deriving DecidableEq

/-- Default case value (used only for out-of-range list access, which the
source's bounds check prevents). -/
def defCase : Case := {}

/-- The texts a bilingual field contributes to `text_parts`: label plus
value for each present, truthy language key (dict shape), or the labeled
plain string (string shape). -/
def biText (lab : String) (swLab : String) (f : Option BiField) : List String :=
  match f with
  | some (.bdict e s) =>
      (match e with
       | some t => if t ≠ "" then [lab ++ t] else []
       | none => []) ++
      (match s with
       | some t => if t ≠ "" then [swLab ++ t] else []
       | none => [])
  | some (.bstr t) => if t ≠ "" then [lab ++ t] else []
  | some .bother => []
  | none => []

/-- Texts contributed by one `question` / `response` component. -/
def qcompText (c : Option QComp) : List String :=
  match c with
  | some (.qdict (some t)) => if t ≠ "" then [t] else []
  | _ => []

/-- Texts contributed by one recommended-question item. -/
def qitemTexts : QItem → List String
  | .qobj q r => qcompText q ++ qcompText r
  | .qnondict => []

/-- `[f"{key}: {value}" for key, value in d.items() if value and
str(value).strip()]` for a mapping-shaped field. -/
def mapTexts (entries : List (String × String)) : List String :=
  (entries.filter (fun kv => pyStrip kv.2 ≠ "")).map
    (fun kv => kv.1 ++ (": ") ++ kv.2)

/-- `MedicalCaseFAISS._extract_case_text`.  Faithful to the source,
including its final block: the list built from `Suspected_illness` is
joined from the variable `red_flags_text`, which is undefined (a Python
`NameError`, modelled as `Except.error ()`) when the case has no
dict-shaped `red_flags` key. -/
def extract_case_text (c : Case) : Except Unit String :=
  let parts :=
    biText ("Background: ") ("Background (Swahili): ") c.patient_background ++
    biText ("Chief Complaint: ") ("Chief Complaint (Swahili): ") c.chief_complaint_history ++
    biText ("Medical History: ") ("Medical History (Swahili): ") c.medical_social_history ++
    biText ("Opening Statement: ") ("Opening Statement (Swahili): ") c.opening_statement
  let qparts :=
    match c.recommended_questions with
    | some (.rlist items) =>
      let qs := (items.map qitemTexts).flatten
      if qs ≠ [] then [("Questions and Responses: ") ++ String.intercalate (" ") qs]
      else []
    | _ => []
  let rfTexts : Option (List String) :=
    match c.red_flags with
    | some (.mdict es) => some (mapTexts es)
    | _ => none
  let rfParts :=
    match rfTexts with
    | some ts =>
      if ts ≠ [] then [("Red Flags: ") ++ String.intercalate (" ") ts] else []
    | none => []
  match c.Suspected_illness with
  | some (.mdict es) =>
    let sTexts := mapTexts es
    if sTexts ≠ [] then
      match rfTexts with
      | none => .error ()
      | some rft =>
        .ok (String.intercalate (" ")
          (parts ++ qparts ++ rfParts ++
            [("Suspected_illness: ") ++ String.intercalate (" ") rft]))
    else .ok (String.intercalate (" ") (parts ++ qparts ++ rfParts))
  | _ => .ok (String.intercalate (" ") (parts ++ qparts ++ rfParts))

/-! ## `medical_case_faiss.py` — build, search, save/load -/

/-- `build_database`'s failure modes: a propagated `NameError` from
text extraction, or the `ValueError("No valid cases found...")` raised
when no record survives the empty-text filter. -/
inductive BuildErr where
  | nameError
  | noValidCases
deriving DecidableEq

/-- The per-record `case_id` assignment:
`if 'case_id' not in case: case['case_id'] = f"case_{i + 1}"`. -/
def assign_id (i : Nat) (c : Case) : Case :=
  match c.case_id with
  | none => { c with case_id := some (("case_") ++ toString (i + 1)) }
  | some _ => c

/-- The enumeration loop of `build_database`: id assignment, text
extraction (propagating its exception) and the non-empty-text filter,
returning the surviving cases and their texts in order. -/
def build_process (i : Nat) : List Case → Except Unit (List Case × List String)
  | [] => .ok ([], [])
  | c :: cs =>
    let c1 := assign_id i c
    match extract_case_text c1 with
    | .error e => .error e
    | .ok text =>
      match build_process (i + 1) cs with
      | .error e => .error e
      | .ok (pcs, texts) =>
        if pyStrip text ≠ "" then .ok (c1 :: pcs, text :: texts)
        else .ok (pcs, texts)

/-- A built database: the stored record list and the per-record text
blobs.  The FAISS index receives exactly one (embedded, L2-normalized)
vector per text, so its `ntotal` is `case_texts.length`. -/
structure BuiltDB where
  cases : List Case
  case_texts : List String
deriving DecidableEq

/-- `MedicalCaseFAISS.build_database` on the already-parsed record list
(the JSON loading is I/O glue).  The embedding step is abstract; it
consumes `case_texts` in one batch and adds one vector per text. -/
def build_database (cases_data : List Case) : Except BuildErr BuiltDB :=
  match build_process 0 cases_data with
  | .error _ => .error .nameError
  | .ok (pcs, texts) =>
    if texts = [] then .error .noValidCases
    else .ok { cases := pcs, case_texts := texts }

/-- One element of `search_similar_cases`' result list (the source's
`CaseSearchResult`, keeping the fields the claims speak about: the full
stored record and the similarity score). -/
structure SearchRes where
  sr_case : Case
  similarity_score : ℚ
deriving DecidableEq

/-- The FAISS `IndexFlatIP.search` call: the top `sk` of the `n` stored
positions in similarity-descending order (stable, so ties keep the
original corpus order). -/
def faiss_topk (n : Nat) (score : Nat → ℚ) (sk : Nat) : List Nat :=
  (List.insertionSort (fun i j => score j ≤ score i) (List.range n)).take sk

/-- The result loop of `search_similar_cases`: skip candidates that are
out of range or below the threshold, append the rest, and `break` once
`len(results) >= k` (checked after appending; `cnt` is the running
`len(results)`). -/
def searchLoop (cases : List Case) (score : Nat → ℚ) (t : ℚ) (k : Nat) :
    List Nat → Nat → List SearchRes
  | [], _ => []
  | i :: rest, cnt =>
    if i < cases.length ∧ t ≤ score i then
      if k ≤ cnt + 1 then [⟨cases.getD i defCase, score i⟩]
      else ⟨cases.getD i defCase, score i⟩ :: searchLoop cases score t k rest (cnt + 1)
    else searchLoop cases score t k rest cnt

/-- `MedicalCaseFAISS.search_similar_cases` on a built index:
`search_k = min(len(self.cases), 50)` candidates are retrieved and then
filtered/truncated by the loop. -/
def search_similar_cases (cases : List Case) (score : Nat → ℚ) (k : Nat) (t : ℚ) :
    List SearchRes :=
  searchLoop cases score t k (faiss_topk cases.length score (min cases.length 50)) 0

/-- The persisted FAISS index file: an opaque vector structure of which
the model keeps the vector count `ntotal`. -/
structure FaissIndexFile where
  ntotal : Nat
deriving DecidableEq

/-- The pickled metadata companion file. -/
structure Metadata where
  cases : List Case
  case_embeddings : List (List ℚ)
  dimension : Nat
deriving DecidableEq

/-- The in-memory state after `load_index`. -/
structure LoadedState where
  index_ntotal : Nat
  cases : List Case
  case_embeddings : List (List ℚ)
  dimension : Nat
deriving DecidableEq

/-- The corruption error the specification says a mismatched pair must
surface (`CorruptIndexError`); the source never raises it. -/
inductive LoadErr where
  | corrupt
deriving DecidableEq

/-- `MedicalCaseFAISS.load_index`: reads the index file and the metadata
file and assigns the four fields.  The source performs no consistency
check between `len(metadata['cases'])` and `index.ntotal`. -/
def load_index (idx : FaissIndexFile) (md : Metadata) : Except LoadErr LoadedState :=
  .ok { index_ntotal := idx.ntotal
        cases := md.cases
        case_embeddings := md.case_embeddings
        dimension := md.dimension }

/-! ## `app.py` — live-session plan and `mark_asked` -/

/-- One value of the live state's `questions` dict: the original
question text, its normalized form (the dict key), the score slot and
the asked flag. -/
structure Entry where
  question : String
  nq : String
  score : Option ℚ
  asked : Bool
deriving DecidableEq

/-- Default entry (out-of-range list access only). -/
def dEntry : Entry := ⟨("") , ("") , none, false⟩

/-- The body of `live_mark_asked`'s loop for one plan entry: skip
already-asked entries; mark on a verbatim substring match of the
normalized question inside the normalized final text; otherwise mark
when the token overlap is at least 3 and
`overlap / max(1, min(len(q_tokens), len(final_tokens)))` is at least
`0.55`. -/
def markStep (norm_final : String) (final_tokens : Finset String) (e : Entry) : Entry :=
  if e.asked then e
  else if e.nq ≠ "" ∧ e.nq.toList <:+: norm_final.toList then { e with asked := true }
  else
    let q_tokens := tokens e.nq
    if q_tokens = ∅ then e
    else
      let overlap := (q_tokens ∩ final_tokens).card
      if 3 ≤ overlap ∧
          (0.55 : ℚ) ≤ (overlap : ℚ) / ((max 1 (min q_tokens.card final_tokens.card) : ℕ) : ℚ)
      then { e with asked := true }
      else e

/-- `app.live_mark_asked` acting on the plan: empty (after strip) final
text returns the plan unchanged; otherwise every entry goes through
`markStep` against the normalized final text.  (The returned `matched`
counter and the JSON envelope are glue and are not modelled.) -/
def live_mark_asked (final_text : String) (plan : List Entry) : List Entry :=
  if pyStrip final_text = "" then plan
  else
    let norm_final := normalize_text final_text
    let final_tokens := tokens norm_final
    plan.map (markStep norm_final final_tokens)

/-! ## `crew_runner.py` — question similarity, dedup, fallback ranking -/

/-- `crew_runner.questions_are_similar`, parameterized by the external
`difflib.SequenceMatcher(None, norm1, norm2).ratio()` function `seqR`:
normalize both, reject empty normalizations and empty token sets, then
combine the token Jaccard overlap (weight 0.4) with the sequence ratio
(weight 0.6) against the threshold 0.75. -/
def questions_are_similar (seqR : String → String → ℚ) (q1 q2 : String) : Bool :=
  let norm1 := normalize_text q1
  let norm2 := normalize_text q2
  if norm1 = "" ∨ norm2 = "" then false
  else
    let tokens1 := tokens norm1
    let tokens2 := tokens norm2
    if tokens1 = ∅ ∨ tokens2 = ∅ then false
    else
      let overlap := (tokens1 ∩ tokens2).card
      let union := (tokens1 ∪ tokens2).card
      let token_similarity : ℚ := if 0 < union then (overlap : ℚ) / (union : ℚ) else 0
      let seq_similarity := seqR norm1 norm2
      let combined_score := token_similarity * (0.4 : ℚ) + seq_similarity * (0.6 : ℚ)
      (0.75 : ℚ) ≤ combined_score

/-- The scan of `deduplicate_questions`: `unique` is the accumulator of
kept representatives; a question similar to any already-kept one is
dropped, the rest are appended. -/
def dedup_go (sim : String → String → Bool) : List String → List String → List String
  | unique, [] => unique
  | unique, q :: qs =>
    if unique.any (fun e => sim q e) then dedup_go sim unique qs
    else dedup_go sim (unique ++ [q]) qs

/-- `crew_runner.deduplicate_questions`, parameterized by the sequence
ratio `seqR` of `questions_are_similar`. -/
def deduplicate_questions (seqR : String → String → ℚ) (questions : List String) :
    List String :=
  dedup_go (fun a b => questions_are_similar seqR a b) [] questions

/-- One element of the ranker's output: `{"question": ..., "score": ...}`. -/
structure RankItem where
  question : String
  score : ℚ
deriving DecidableEq

/-- The fallback heuristic block of `rank_questions_for_unasked` (the
path taken whenever the LLM path fails or is unavailable): score each
question by normalized-token overlap with the conversation tokens,
stable-sort by score descending, return the top 10.  `convo_text` is
stripped before use (line 240 of the source). -/
def fallback_rank (convo_text : String) (questions : List String) : List RankItem :=
  let conv_norm := normalize_text (pyStrip convo_text)
  let conv_tokens := tokens conv_norm
  let ranked := questions.map (fun q =>
    let qn := normalize_text q
    let q_tokens := tokens qn
    let score : ℚ :=
      if q_tokens = ∅ then 0
      else ((q_tokens ∩ conv_tokens).card : ℚ) / ((max 1 q_tokens.card : ℕ) : ℚ)
    ⟨q, score⟩)
  (List.insertionSort (fun a b => b.score ≤ a.score) ranked).take 10

/-! ## Concrete records used by the evaluation theorems -/

/-- A case with both a dict-shaped `red_flags` and a dict-shaped
`Suspected_illness`, each with one non-empty annotation. -/
def c6case : Case :=
  { red_flags := some (.mdict [(("fever"), ("yes"))]),
    Suspected_illness := some (.mdict [(("lymphoma"), ("possible"))]) }

/-- A case whose only populated key is a dict-shaped
`Suspected_illness` with a non-empty annotation (no `red_flags`). -/
def suspOnlyCase : Case :=
  { Suspected_illness := some (.mdict [(("lymphoma"), ("possible"))]) }

/-- A case with a plain-string patient background, whose derived text
blob is the non-empty string `Background: fever`. -/
def goodCase : Case := { patient_background := some (.bstr ("fever")) }

/-! ## Helper lemmas -/

lemma isPyWs_toLower {c : Char} (h : isPyWs c = true) : c.toLower = c := by
  simp only [isPyWs, Bool.or_eq_true, decide_eq_true_eq] at h
  rcases h with ((((h | h) | h) | h) | h) | h <;> subst h <;> decide

lemma toList_eq_data (s : String) : s.toList = s.data := rfl

lemma string_mk_eq_empty {l : List Char} : String.mk l = "" ↔ l = [] := by
  constructor
  · intro h
    have := congrArg String.data h
    simpa using this
  · intro h
    subst h
    rfl

lemma pyStripList_eq_nil {l : List Char} :
    pyStripList l = [] ↔ ∀ c ∈ l, isPyWs c = true := by
  unfold pyStripList
  rw [List.reverse_eq_nil_iff, List.dropWhile_eq_nil_iff]
  constructor
  · intro h c hc
    have hsplit := List.takeWhile_append_dropWhile (p := isPyWs) (l := l)
    rw [← hsplit] at hc
    rcases List.mem_append.mp hc with h1 | h1
    · exact List.mem_takeWhile_imp h1
    · exact h c (List.mem_reverse.mpr h1)
  · intro h c hc
    exact h c ((List.dropWhile_sublist _).subset (List.mem_reverse.mp hc))

lemma pyStrip_eq_empty {s : String} :
    pyStrip s = "" ↔ ∀ c ∈ s.toList, isPyWs c = true := by
  rw [pyStrip, string_mk_eq_empty, pyStripList_eq_nil]

lemma normalize_text_of_strip_empty {t : String} (h : pyStrip t = "") :
    normalize_text t = "" := by
  by_cases ht : t = ""
  · simp [normalize_text, ht]
  · rw [normalize_text, if_neg ht]
    have hws : ∀ c ∈ t.toList, isPyWs c = true := pyStrip_eq_empty.mp h
    have hlow : pyStrip (pyLower t) = "" := by
      rw [pyStrip_eq_empty]
      intro c hc
      have hdata : (pyLower t).toList = t.toList.map Char.toLower := rfl
      rw [hdata] at hc
      rcases List.mem_map.mp hc with ⟨d, hd, hdc⟩
      have hwd := hws d hd
      rw [← hdc, isPyWs_toLower hwd]
      exact hwd
    rw [hlow]
    rfl

lemma tokens_empty : tokens ("") = ∅ := rfl

lemma markStep_of_asked {nf : String} {ft : Finset String} {e : Entry}
    (h : e.asked = true) : markStep nf ft e = e := by
  simp [markStep, h]

lemma markStep_asked_mono {nf : String} {ft : Finset String} {e : Entry}
    (h : e.asked = true) : (markStep nf ft e).asked = true := by
  rw [markStep_of_asked h]
  exact h

lemma markStep_marks_iff {nf : String} {ft : Finset String} {e : Entry}
    (h1 : e.asked = false) :
    (markStep nf ft e).asked = true ↔
      ((e.nq ≠ "" ∧ e.nq.toList <:+: nf.toList) ∨
       (tokens e.nq ≠ ∅ ∧
        3 ≤ ((tokens e.nq) ∩ ft).card ∧
        (0.55 : ℚ) ≤ (((tokens e.nq) ∩ ft).card : ℚ) /
          ((max 1 (min (tokens e.nq).card ft.card) : ℕ) : ℚ))) := by
  simp only [markStep, toList_eq_data]
  split_ifs with ha hb hc hd
  · simp [h1] at ha
  · exact iff_of_true rfl (Or.inl hb)
  · refine iff_of_false (by simp [h1]) ?_
    rintro (h | ⟨hne, _, _⟩)
    · exact hb h
    · exact hne hc
  · exact iff_of_true rfl (Or.inr ⟨hc, hd.1, hd.2⟩)
  · refine iff_of_false (by simp [h1]) ?_
    rintro (h | ⟨_, h2, h3⟩)
    · exact hb h
    · exact hd ⟨h2, h3⟩

lemma searchLoop_length_le_max (cases : List Case) (score : Nat → ℚ) (t : ℚ) (k : Nat) :
    ∀ (l : List Nat) (cnt : Nat),
      (searchLoop cases score t k l cnt).length ≤ max (k - cnt) 1 := by
  intro l
  induction l with
  | nil => intro cnt; simp [searchLoop]
  | cons i rest ih =>
    intro cnt
    simp only [searchLoop]
    split_ifs with hpass hbreak
    · simp
    · simp only [List.length_cons]
      have := ih (cnt + 1)
      omega
    · exact le_trans (ih cnt) (by omega)

lemma searchLoop_cnt_succ (cases : List Case) (score : Nat → ℚ) (t : ℚ) (k : Nat) :
    ∀ (l : List Nat) (cnt : Nat),
      (searchLoop cases score t k l cnt).length ≤
        (searchLoop cases score t k l (cnt + 1)).length + 1 := by
  intro l
  induction l with
  | nil => intro cnt; simp [searchLoop]
  | cons i rest ih =>
    intro cnt
    by_cases hpass : i < cases.length ∧ t ≤ score i
    · by_cases hb1 : k ≤ cnt + 1
      · have hb2 : k ≤ cnt + 1 + 1 := by omega
        simp [searchLoop, hpass, hb1, hb2]
      · by_cases hb2 : k ≤ cnt + 1 + 1
        · have hbound := searchLoop_length_le_max cases score t k rest (cnt + 1)
          simp only [searchLoop, if_pos hpass, if_neg hb1, if_pos hb2, List.length_cons,
            List.length_singleton]
          omega
        · have := ih (cnt + 1)
          simp only [searchLoop, if_pos hpass, if_neg hb1, if_neg hb2, List.length_cons]
          omega
    · simp only [searchLoop, if_neg hpass]
      exact ih cnt

lemma searchLoop_threshold (cases : List Case) (score : Nat → ℚ) (t : ℚ) (k : Nat) :
    ∀ (l : List Nat) (cnt : Nat) (r : SearchRes),
      r ∈ searchLoop cases score t k l cnt → t ≤ r.similarity_score := by
  intro l
  induction l with
  | nil => intro cnt r hr; simp [searchLoop] at hr
  | cons i rest ih =>
    intro cnt r hr
    simp only [searchLoop] at hr
    split_ifs at hr with hpass hbreak
    · rcases List.mem_singleton.mp hr with h
      subst h
      exact hpass.2
    · rcases List.mem_cons.mp hr with h | h
      · subst h
        exact hpass.2
      · exact ih (cnt + 1) r h
    · exact ih cnt r hr

lemma searchLoop_sublist (cases : List Case) (score : Nat → ℚ) (t : ℚ) (k : Nat) :
    ∀ (l : List Nat) (cnt : Nat),
      List.Sublist (searchLoop cases score t k l cnt)
        (l.map (fun i => (⟨cases.getD i defCase, score i⟩ : SearchRes))) := by
  intro l
  induction l with
  | nil => intro cnt; simp [searchLoop]
  | cons i rest ih =>
    intro cnt
    simp only [searchLoop, List.map_cons]
    split_ifs with hpass hbreak
    · exact (List.nil_sublist _).cons₂ _
    · exact (ih (cnt + 1)).cons₂ _
    · exact (ih cnt).cons _

lemma searchLoop_all_below (cases : List Case) (score : Nat → ℚ) (t : ℚ) (k : Nat) :
    ∀ (l : List Nat) (cnt : Nat),
      (∀ i ∈ l, i < cases.length → score i < t) →
      searchLoop cases score t k l cnt = [] := by
  intro l
  induction l with
  | nil => intro cnt _; simp [searchLoop]
  | cons i rest ih =>
    intro cnt h
    have hpass : ¬(i < cases.length ∧ t ≤ score i) := by
      rintro ⟨hlt, hge⟩
      exact absurd hge (not_le.mpr (h i (List.mem_cons_self i rest) hlt))
    simp only [searchLoop, if_neg hpass]
    exact ih cnt (fun j hj => h j (List.mem_cons_of_mem i hj))

lemma searchLoop_mono (cases : List Case) (score : Nat → ℚ) (k : Nat) {t1 t2 : ℚ}
    (h : t1 ≤ t2) :
    ∀ (l : List Nat) (cnt : Nat),
      (searchLoop cases score t2 k l cnt).length ≤
        (searchLoop cases score t1 k l cnt).length := by
  intro l
  induction l with
  | nil => intro cnt; simp [searchLoop]
  | cons i rest ih =>
    intro cnt
    by_cases hp2 : i < cases.length ∧ t2 ≤ score i
    · have hp1 : i < cases.length ∧ t1 ≤ score i := ⟨hp2.1, le_trans h hp2.2⟩
      by_cases hb : k ≤ cnt + 1
      · simp [searchLoop, hp1, hp2, hb]
      · simp only [searchLoop, if_pos hp1, if_pos hp2, if_neg hb, List.length_cons]
        exact Nat.succ_le_succ (ih (cnt + 1))
    · by_cases hp1 : i < cases.length ∧ t1 ≤ score i
      · by_cases hb : k ≤ cnt + 1
        · have hbound := searchLoop_length_le_max cases score t2 k rest cnt
          simp only [searchLoop, if_neg hp2, if_pos hp1, if_pos hb, List.length_singleton]
          omega
        · have h1 := ih cnt
          have h2 := searchLoop_cnt_succ cases score t1 k rest cnt
          simp only [searchLoop, if_neg hp2, if_pos hp1, if_neg hb, List.length_cons]
          omega
      · simp only [searchLoop, if_neg hp2, if_neg hp1]
        exact ih cnt

lemma mem_faiss_topk {n : Nat} {score : Nat → ℚ} {sk i : Nat}
    (h : i ∈ faiss_topk n score sk) : i < n := by
  unfold faiss_topk at h
  have h1 := List.mem_of_mem_take h
  rw [List.mem_insertionSort] at h1
  exact List.mem_range.mp h1

lemma sorted_faiss_topk (n : Nat) (score : Nat → ℚ) (sk : Nat) :
    (faiss_topk n score sk).Pairwise (fun i j => score j ≤ score i) := by
  haveI : IsTotal Nat (fun i j => score j ≤ score i) :=
    ⟨fun a b => le_total (score b) (score a)⟩
  haveI : IsTrans Nat (fun i j => score j ≤ score i) :=
    ⟨fun a b c h1 h2 => le_trans h2 h1⟩
  exact List.Pairwise.sublist (List.take_sublist _ _)
    (List.sorted_insertionSort (fun i j => score j ≤ score i) (List.range n))

lemma live_mark_asked_length (t : String) (p : List Entry) :
    (live_mark_asked t p).length = p.length := by
  unfold live_mark_asked
  split
  · rfl
  · simp

lemma live_mark_asked_asked_mono (t : String) (p : List Entry) (i : Nat)
    (h : (p.getD i dEntry).asked = true) :
    ((live_mark_asked t p).getD i dEntry).asked = true := by
  unfold live_mark_asked
  split
  · exact h
  · rcases Nat.lt_or_ge i p.length with hi | hi
    · rw [List.getD_eq_getElem?_getD, List.getElem?_map,
        List.getElem?_eq_getElem hi, Option.map_some', Option.getD_some]
      rw [List.getD_eq_getElem?_getD, List.getElem?_eq_getElem hi,
        Option.getD_some] at h
      exact markStep_asked_mono h
    · have hnone : p[i]? = none := List.getElem?_eq_none hi
      rw [List.getD_eq_getElem?_getD, hnone] at h
      simp [dEntry] at h

lemma dedup_go_pairwise (sim : String → String → Bool) :
    ∀ (l u : List String), u.Pairwise (fun x y => sim y x = false) →
      (dedup_go sim u l).Pairwise (fun x y => sim y x = false) := by
  intro l
  induction l with
  | nil => intro u hu; exact hu
  | cons q qs ih =>
    intro u hu
    by_cases hdup : u.any (fun e => sim q e) = true
    · simp only [dedup_go, if_pos hdup]
      exact ih u hu
    · simp only [dedup_go, if_neg hdup]
      refine ih (u ++ [q]) ?_
      rw [List.pairwise_append]
      refine ⟨hu, List.pairwise_singleton _ _, ?_⟩
      intro a ha b hb
      rw [List.mem_singleton] at hb
      subst hb
      rw [List.any_eq_true] at hdup
      push_neg at hdup
      simpa using hdup a ha

lemma dedup_go_fixed (sim : String → String → Bool) :
    ∀ (l u : List String), (u ++ l).Pairwise (fun x y => sim y x = false) →
      dedup_go sim u l = u ++ l := by
  intro l
  induction l with
  | nil => intro u _; simp [dedup_go]
  | cons q qs ih =>
    intro u hu
    have h3 := (List.pairwise_append.mp hu).2.2
    have hq : u.any (fun e => sim q e) = false := by
      rw [List.any_eq_false]
      intro a ha
      simpa using h3 a ha q (List.mem_cons_self q qs)
    simp only [dedup_go, hq, Bool.false_eq_true, if_false]
    have : (u ++ [q]) ++ qs = u ++ q :: qs := by
      rw [List.append_assoc, List.singleton_append]
    rw [ih (u ++ [q]) (by rw [this]; exact hu), this]

lemma dedup_go_sublist (sim : String → String → Bool) :
    ∀ (l u : List String), List.Sublist (dedup_go sim u l) (u ++ l) := by
  intro l
  induction l with
  | nil => intro u; simp [dedup_go]
  | cons q qs ih =>
    intro u
    by_cases hdup : u.any (fun e => sim q e) = true
    · simp only [dedup_go, if_pos hdup]
      refine (ih u).trans ?_
      refine List.Sublist.append_left ?_ u
      exact List.sublist_cons_self q qs
    · simp only [dedup_go, if_neg hdup]
      have h1 := ih (u ++ [q])
      rw [List.append_assoc, List.singleton_append] at h1
      exact h1

lemma dedup_go_mem_acc (sim : String → String → Bool) :
    ∀ (l u : List String) (x : String), x ∈ u → x ∈ dedup_go sim u l := by
  intro l
  induction l with
  | nil => intro u x hx; exact hx
  | cons q qs ih =>
    intro u x hx
    by_cases hdup : u.any (fun e => sim q e) = true
    · simp only [dedup_go, if_pos hdup]
      exact ih u x hx
    · simp only [dedup_go, if_neg hdup]
      exact ih (u ++ [q]) x (List.mem_append_left _ hx)

lemma dedup_go_dropped (sim : String → String → Bool) :
    ∀ (l u : List String) (q : String), q ∈ l → q ∉ dedup_go sim u l →
      ∃ p, p ∈ dedup_go sim u l ∧ sim q p = true := by
  intro l
  induction l with
  | nil => intro u q hq; simp at hq
  | cons a qs ih =>
    intro u q hq hnot
    by_cases hdup : u.any (fun e => sim a e) = true
    · rcases List.mem_cons.mp hq with rfl | hq'
      · rcases List.any_eq_true.mp hdup with ⟨e, he, hsim⟩
        refine ⟨e, ?_, by simpa using hsim⟩
        simp only [dedup_go, if_pos hdup]
        exact dedup_go_mem_acc sim qs u e he
      · simp only [dedup_go, if_pos hdup] at hnot ⊢
        exact ih u q hq' hnot
    · simp only [dedup_go, if_neg hdup] at hnot ⊢
      rcases List.mem_cons.mp hq with rfl | hq'
      · exact absurd (dedup_go_mem_acc sim qs (u ++ [q]) q
          (List.mem_append_right u (List.mem_singleton_self q))) hnot
      · exact ih (u ++ [a]) q hq' hnot

lemma overlap_min_max (qt ft : Finset String) (hov : 3 ≤ (qt ∩ ft).card) :
    max 1 (min qt.card ft.card) = min qt.card ft.card := by
  have hq : (qt ∩ ft).card ≤ qt.card := Finset.card_le_card Finset.inter_subset_left
  have hf : (qt ∩ ft).card ≤ ft.card := Finset.card_le_card Finset.inter_subset_right
  exact Nat.max_eq_right (le_min (by omega) (by omega))

lemma overlap_ne_empty (qt ft : Finset String) (hov : 3 ≤ (qt ∩ ft).card) :
    qt ≠ ∅ := by
  intro h
  rw [h] at hov
  simp at hov

lemma fallback_score_formula (ct : Finset String) (q : String) :
    (if tokens (normalize_text q) = ∅ then (0 : ℚ)
     else ((tokens (normalize_text q) ∩ ct).card : ℚ) /
       ((max 1 (tokens (normalize_text q)).card : ℕ) : ℚ)) =
    ((tokens (normalize_text q) ∩ ct).card : ℚ) /
      ((max 1 (tokens (normalize_text q)).card : ℕ) : ℚ) := by
  by_cases h : tokens (normalize_text q) = ∅
  · rw [if_pos h, h]
    simp
  · rw [if_neg h]

/-! ## Claim theorems -/

/-- C1 (counterexample): a persisted pair whose metadata holds 1 case
while the vector structure holds 2 vectors is loaded without any error:
`load_index` completes normally on mismatched counts, so the claim that
every mismatched pair makes the load fail with a corruption error is
false. -/
theorem load_mismatch_counterexample :
    load_index ⟨2⟩ ⟨[defCase], [], 3⟩ = .ok ⟨2, [defCase], [], 3⟩ ∧
    (Metadata.cases ⟨[defCase], [], 3⟩).length ≠ FaissIndexFile.ntotal ⟨2⟩ := by
  exact ⟨rfl, by decide⟩

/-- C1 (amended): `load_index` performs no record-count/vector-count
consistency check at all: for every persisted index file and metadata
file it completes normally, restoring exactly the stored cases,
embeddings, dimension and vector count — even when the counts disagree.
-/
theorem load_index_total_no_check (idx : FaissIndexFile) (md : Metadata) :
    load_index idx md =
      .ok ⟨idx.ntotal, md.cases, md.case_embeddings, md.dimension⟩ := rfl

/-- C3: `build_database` does not index exactly the records with
non-empty blobs, and its failure is not equivalent to zero survivors:
on the list `[goodCase, suspOnlyCase]` — where `goodCase`'s blob is the
non-empty string `Background: fever` — the build aborts with the
`NameError` propagated from `_extract_case_text` (the undefined
`red_flags_text` variable) instead of indexing the surviving record. -/
theorem build_database_nameError_on_survivor :
    build_database [goodCase, suspOnlyCase] = .error .nameError ∧
    extract_case_text goodCase = .ok ("Background: fever") := ⟨rfl, rfl⟩

/-- C6: for a case whose `Suspected_illness` mapping holds the non-empty
annotation `lymphoma ↦ possible` (and whose `red_flags` mapping holds
`fever ↦ yes`), the derived blob does NOT contain the suspected-condition
annotation text: the source joins `red_flags_text` instead of the
collected `Suspected_illness` list, so the blob repeats the red-flag
text under the `Suspected_illness:` label. -/
theorem extract_suspected_text_wrong :
    extract_case_text c6case =
      .ok ("Red Flags: fever: yes Suspected_illness: fever: yes") ∧
    ¬ (("lymphoma").toList <:+:
        ("Red Flags: fever: yes Suspected_illness: fever: yes").toList) ∧
    ¬ (("possible").toList <:+:
        ("Red Flags: fever: yes Suspected_illness: fever: yes").toList) := by
  exact ⟨rfl, by decide, by decide⟩

/-- C10: case-text extraction is not total: on a case that has a
dict-shaped `Suspected_illness` with a non-empty value but no
dict-shaped `red_flags`, `_extract_case_text` hits the undefined
variable `red_flags_text` and raises a `NameError` (modelled as
`Except.error ()`). -/
theorem extract_case_text_raises_nameError :
    extract_case_text suspOnlyCase = .error () := rfl

/-- C2 (counterexample): with `k = 0` the search loop appends one
passing candidate before its `len(results) >= k` break fires, so
`search_similar_cases` returns 1 result — more than `k`.  The claim's
"at most k results" therefore fails for `k = 0`. -/
theorem search_k_zero_counterexample :
    (search_similar_cases [defCase] (fun _ => (1 : ℚ)) 0 0).length = 1 ∧
    ¬ ((search_similar_cases [defCase] (fun _ => (1 : ℚ)) 0 0).length ≤ 0) := by
  exact ⟨rfl, by decide⟩

/-- C2 (amended, `k ≥ 1`): for every built index, abstract similarity
function, result count `k ≥ 1` and threshold `t`, `search_similar_cases`
returns at most `k` results, every result's similarity is at least `t`,
the results are in similarity-descending order, and if every stored
vector scores below `t` the result is the empty list (no error). -/
theorem search_spec_pos_k (cases : List Case) (score : Nat → ℚ) (k : Nat) (t : ℚ)
    (hk : 1 ≤ k) :
    (search_similar_cases cases score k t).length ≤ k ∧
    (∀ r ∈ search_similar_cases cases score k t, t ≤ r.similarity_score) ∧
    (search_similar_cases cases score k t).Pairwise
      (fun a b => b.similarity_score ≤ a.similarity_score) ∧
    ((∀ i, i < cases.length → score i < t) →
      search_similar_cases cases score k t = []) := by
  refine ⟨?_, ?_, ?_, ?_⟩
  · have h := searchLoop_length_le_max cases score t k
      (faiss_topk cases.length score (min cases.length 50)) 0
    unfold search_similar_cases
    omega
  · intro r hr
    exact searchLoop_threshold cases score t k _ 0 r hr
  · have hsub := searchLoop_sublist cases score t k
      (faiss_topk cases.length score (min cases.length 50)) 0
    have hpair : (faiss_topk cases.length score (min cases.length 50)).Pairwise
        (fun i j => score j ≤ score i) :=
      sorted_faiss_topk cases.length score (min cases.length 50)
    have hmap : ((faiss_topk cases.length score (min cases.length 50)).map
        (fun i => (⟨cases.getD i defCase, score i⟩ : SearchRes))).Pairwise
        (fun a b => b.similarity_score ≤ a.similarity_score) :=
      List.pairwise_map.mpr hpair
    exact List.Pairwise.sublist hsub hmap
  · intro hall
    apply searchLoop_all_below
    intro i hi hilt
    exact hall i hilt

/-- C2 witness: the amended search contract instantiated at a one-case
index with constant similarity 1, `k = 1`, threshold 0. -/
theorem search_spec_pos_k_witness :
    1 ≤ 1 ∧
    ((search_similar_cases [defCase] (fun _ => (1 : ℚ)) 1 0).length ≤ 1 ∧
     (∀ r ∈ search_similar_cases [defCase] (fun _ => (1 : ℚ)) 1 0,
        (0 : ℚ) ≤ r.similarity_score) ∧
     (search_similar_cases [defCase] (fun _ => (1 : ℚ)) 1 0).Pairwise
       (fun a b => b.similarity_score ≤ a.similarity_score) ∧
     ((∀ i, i < ([defCase] : List Case).length → (fun _ => (1 : ℚ)) i < 0) →
       search_similar_cases [defCase] (fun _ => (1 : ℚ)) 1 0 = [])) :=
  ⟨le_refl 1, search_spec_pos_k [defCase] (fun _ => (1 : ℚ)) 1 0 (le_refl 1)⟩

/-- C8: raising the similarity threshold never increases the number of
results: for a fixed built index, abstract similarity function and `k`,
if `t1 ≤ t2` then the search with threshold `t2` returns at most as many
results as the search with threshold `t1`. -/
theorem search_threshold_monotone (cases : List Case) (score : Nat → ℚ) (k : Nat)
    (t1 t2 : ℚ) (h : t1 ≤ t2) :
    (search_similar_cases cases score k t2).length ≤
      (search_similar_cases cases score k t1).length := by
  unfold search_similar_cases
  exact searchLoop_mono cases score k h
    (faiss_topk cases.length score (min cases.length 50)) 0

/-- C8 witness: threshold monotonicity instantiated at a one-case index
with constant similarity 1, `k = 1`, thresholds 0 and 2. -/
theorem search_threshold_monotone_witness :
    (0 : ℚ) ≤ 2 ∧
    (search_similar_cases [defCase] (fun _ => (1 : ℚ)) 1 2).length ≤
      (search_similar_cases [defCase] (fun _ => (1 : ℚ)) 1 0).length :=
  ⟨by norm_num,
   search_threshold_monotone [defCase] (fun _ => (1 : ℚ)) 1 0 2 (by norm_num)⟩

/-- C4: once a plan entry's `asked` flag is true it remains true under
any sequence of `mark_asked` calls: already-asked entries are returned
unchanged by the per-entry step (idempotent skip, first conjunct), and
folding any list of final-transcript texts through `live_mark_asked`
never resets an asked entry at any position (second conjunct). -/
theorem mark_asked_no_resurrection :
    (∀ (nf : String) (ft : Finset String) (e : Entry),
      e.asked = true → markStep nf ft e = e) ∧
    (∀ (texts : List String) (plan : List Entry) (i : Nat),
      (plan.getD i dEntry).asked = true →
      ((texts.foldl (fun p t => live_mark_asked t p) plan).getD i dEntry).asked = true) := by
  constructor
  · exact fun nf ft e h => markStep_of_asked h
  · intro texts
    induction texts with
    | nil => intro plan i h; exact h
    | cons t ts ih =>
      intro plan i h
      simp only [List.foldl_cons]
      exact ih (live_mark_asked t plan) i (live_mark_asked_asked_mono t plan i h)

/-- C4 witness: an already-asked entry survives a `markStep` unchanged
and stays asked after folding a concrete `mark_asked` call. -/
theorem mark_asked_no_resurrection_witness :
    markStep ("") ∅ ⟨("q"), ("q"), none, true⟩ = ⟨("q"), ("q"), none, true⟩ ∧
    ((([("hello")]).foldl (fun p t => live_mark_asked t p)
        [⟨("q"), ("q"), none, true⟩]).getD 0 dEntry).asked = true :=
  ⟨mark_asked_no_resurrection.1 ("") ∅ ⟨("q"), ("q"), none, true⟩ rfl,
   mark_asked_no_resurrection.2 [("hello")] [⟨("q"), ("q"), none, true⟩] 0 rfl⟩

/-- C7: a not-yet-asked plan entry (with the non-empty normalized key
every stored entry has) is marked asked by `live_mark_asked` exactly
when its normalized text occurs verbatim inside the normalized final
transcript, or the shared-token count is at least 3 and that count over
`min(|question tokens|, |transcript tokens|)` is at least 0.55. -/
theorem mark_asked_match_condition (final_text : String) (e : Entry)
    (h1 : e.asked = false) (h2 : e.nq ≠ "") :
    (((live_mark_asked final_text [e]).getD 0 dEntry).asked = true) ↔
      (e.nq.toList <:+: (normalize_text final_text).toList ∨
       (3 ≤ ((tokens e.nq) ∩ (tokens (normalize_text final_text))).card ∧
        (0.55 : ℚ) ≤
          (((tokens e.nq) ∩ (tokens (normalize_text final_text))).card : ℚ) /
            ((min (tokens e.nq).card (tokens (normalize_text final_text)).card : ℕ) : ℚ))) := by
  unfold live_mark_asked
  split
  · rename_i hstrip
    have hn : normalize_text final_text = "" := normalize_text_of_strip_empty hstrip
    rw [hn]
    refine iff_of_false ?_ ?_
    · simp only [List.getD_cons_zero]
      rw [h1]
      exact Bool.false_ne_true
    · rintro (hinf | ⟨hov, _⟩)
      · have : e.nq.toList = [] := by
          simpa using List.eq_nil_of_infix_nil hinf
        exact h2 (by
          have := congrArg String.mk this
          simpa using this)
      · rw [tokens_empty] at hov
        simp at hov
  · rename_i hstrip
    simp only [List.map_cons, List.map_nil, List.getD_cons_zero]
    rw [markStep_marks_iff h1]
    constructor
    · rintro (⟨_, hinf⟩ | ⟨_, hov, hrat⟩)
      · exact Or.inl hinf
      · refine Or.inr ⟨hov, ?_⟩
        rwa [overlap_min_max _ _ hov] at hrat
    · rintro (hinf | ⟨hov, hrat⟩)
      · exact Or.inl ⟨h2, hinf⟩
      · refine Or.inr ⟨overlap_ne_empty _ _ hov, hov, ?_⟩
        rwa [overlap_min_max _ _ hov]

/-- C7 witness: the entry for `do you smoke` (unasked) is marked by the
final text `well, do you smoke sir?` — and the match condition holds. -/
theorem mark_asked_match_condition_witness :
    (⟨("Do you smoke?"), ("do you smoke"), none, false⟩ : Entry).asked = false ∧
    (⟨("Do you smoke?"), ("do you smoke"), none, false⟩ : Entry).nq ≠ "" ∧
    ((((live_mark_asked ("well, do you smoke sir?")
        [⟨("Do you smoke?"), ("do you smoke"), none, false⟩]).getD 0 dEntry).asked = true) ↔
      (("do you smoke").toList <:+:
          (normalize_text ("well, do you smoke sir?")).toList ∨
       (3 ≤ ((tokens ("do you smoke")) ∩
              (tokens (normalize_text ("well, do you smoke sir?")))).card ∧
        (0.55 : ℚ) ≤
          (((tokens ("do you smoke")) ∩
              (tokens (normalize_text ("well, do you smoke sir?")))).card : ℚ) /
            ((min (tokens ("do you smoke")).card
                (tokens (normalize_text ("well, do you smoke sir?"))).card : ℕ) : ℚ)))) :=
  ⟨rfl, by decide,
   mark_asked_match_condition ("well, do you smoke sir?")
     ⟨("Do you smoke?"), ("do you smoke"), none, false⟩ rfl (by decide)⟩

/-- C5: the fallback heuristic path of the ranker is a total function:
for every transcript and every non-empty question list it returns a
non-empty list of at most 10 items, sorted descending by score, where
every item's score equals the normalized token overlap
`|question_tokens ∩ transcript_tokens| / max(1, |question_tokens|)` and
hence lies in `[0, 1]`. -/
theorem fallback_rank_total_spec (convo : String) (qs : List String) (h : qs ≠ []) :
    fallback_rank convo qs ≠ [] ∧
    (fallback_rank convo qs).length ≤ 10 ∧
    (fallback_rank convo qs).Pairwise (fun a b => b.score ≤ a.score) ∧
    ∀ it ∈ fallback_rank convo qs,
      it.score = ((tokens (normalize_text it.question) ∩
          tokens (normalize_text (pyStrip convo))).card : ℚ) /
        ((max 1 (tokens (normalize_text it.question)).card : ℕ) : ℚ) ∧
      0 ≤ it.score ∧ it.score ≤ 1 := by
  haveI hTot : IsTotal RankItem (fun a b => b.score ≤ a.score) :=
    ⟨fun a b => le_total b.score a.score⟩
  haveI hTr : IsTrans RankItem (fun a b => b.score ≤ a.score) :=
    ⟨fun a b c h1 h2 => le_trans h2 h1⟩
  refine ⟨?_, ?_, ?_, ?_⟩
  · unfold fallback_rank
    intro hemp
    have := congrArg List.length hemp
    simp only [List.length_take, List.length_insertionSort, List.length_map,
      List.length_nil] at this
    have hpos : 0 < qs.length := List.length_pos.mpr h
    omega
  · unfold fallback_rank
    simp only [List.length_take]
    exact min_le_left _ _
  · unfold fallback_rank
    exact List.Pairwise.sublist (List.take_sublist _ _)
      (List.sorted_insertionSort _ _)
  · intro it hit
    unfold fallback_rank at hit
    have hit1 := List.mem_of_mem_take hit
    rw [List.mem_insertionSort] at hit1
    rcases List.mem_map.mp hit1 with ⟨q, hq, heq⟩
    subst heq
    dsimp only
    rw [fallback_score_formula]
    refine ⟨rfl, ?_, ?_⟩
    · exact div_nonneg (Nat.cast_nonneg _) (Nat.cast_nonneg _)
    · rw [div_le_one (by positivity)]
      have hle : (tokens (normalize_text q) ∩
          tokens (normalize_text (pyStrip convo))).card ≤
          max 1 (tokens (normalize_text q)).card :=
        le_trans (Finset.card_le_card Finset.inter_subset_left) (le_max_right _ _)
      exact_mod_cast hle

/-- C5 witness: the fallback contract instantiated at transcript `a b`
and question list `[a]`. -/
theorem fallback_rank_total_spec_witness :
    ([("a")] : List String) ≠ [] ∧
    (fallback_rank ("a b") [("a")] ≠ [] ∧
     (fallback_rank ("a b") [("a")]).length ≤ 10 ∧
     (fallback_rank ("a b") [("a")]).Pairwise (fun a b => b.score ≤ a.score) ∧
     ∀ it ∈ fallback_rank ("a b") [("a")],
       it.score = ((tokens (normalize_text it.question) ∩
           tokens (normalize_text (pyStrip ("a b")))).card : ℚ) /
         ((max 1 (tokens (normalize_text it.question)).card : ℕ) : ℚ) ∧
       0 ≤ it.score ∧ it.score ≤ 1) :=
  ⟨by decide, fallback_rank_total_spec ("a b") [("a")] (by decide)⟩

/-- C9: `deduplicate_questions` (for every sequence-similarity oracle
`seqR` standing for `difflib.SequenceMatcher.ratio`) is idempotent, its
output is a sublist of the input (first-seen representatives in input
order), and every dropped question is similar to some kept one. -/
theorem deduplicate_idempotent_spec (seqR : String → String → ℚ) (Q : List String) :
    deduplicate_questions seqR (deduplicate_questions seqR Q) =
      deduplicate_questions seqR Q ∧
    List.Sublist (deduplicate_questions seqR Q) Q ∧
    ∀ q ∈ Q, q ∉ deduplicate_questions seqR Q →
      ∃ p, p ∈ deduplicate_questions seqR Q ∧
        questions_are_similar seqR q p = true := by
  refine ⟨?_, ?_, ?_⟩
  · have hK := dedup_go_pairwise (fun a b => questions_are_similar seqR a b) Q []
      List.Pairwise.nil
    have hfix := dedup_go_fixed (fun a b => questions_are_similar seqR a b)
      (dedup_go (fun a b => questions_are_similar seqR a b) [] Q) []
      (by simpa using hK)
    unfold deduplicate_questions
    simpa using hfix
  · have := dedup_go_sublist (fun a b => questions_are_similar seqR a b) Q []
    unfold deduplicate_questions
    simpa using this
  · intro q hq hnot
    exact dedup_go_dropped (fun a b => questions_are_similar seqR a b) Q [] q hq hnot
